import Mathlib

/-!
Verification of the mod-assignment core of the DIM repository
(`src/unnamed/part_000`, function `getCheapestModAssignments` and its helpers).

The TypeScript source is shallowly embedded below.  Machine numbers are
modelled as `Nat` (energy costs and capacities are small non-negative
integers), `DestinyEnergyType` is modelled as `Nat` with `0 = Any`
(the wildcard; in the source `DestinyEnergyType.Any = 0`, which is also
the only falsy enum value, matching the truthiness tests in the source),
JavaScript `Map` objects keyed by item id are modelled as association
lists with JS insertion-order semantics (`mapGet` / `mapSet`), and
`undefined` is modelled as `Option`.

External collaborators that are imported by the source file but whose
code is not part of this repository snapshot (the manifest-definitions
handle, `upgradeSpendTierToMaxEnergy`, `getItemEnergyType`,
`getModTypeTagByPlugCategoryHash`, `getSpecialtySocketMetadatas` and the
static category-hash tables) are opaque pure functions; they are bundled
as fields of the `Defs` structure and the development is parametric in
them.  Two collaborators whose behaviour the claims do depend on,
`isModEnergyValid` and `generateModPermutations`, are modelled from the
spec (see their doc comments).
-/

namespace DIM

/-- DestinyEnergyType, modelled as Nat: 0 = Any (wildcard), 1 = Arc,
2 = Thermal (Solar), 3 = Void, 6 = Stasis. -/
abbrev EnergyType := Nat

/-- One mod (`PluggableInventoryItemDefinition`).  `energyCost` models
`mod.plug.energyCost?.energyCost || 0` and `energyType` models
`mod.plug.energyCost?.energyType || DestinyEnergyType.Any`, i.e. the
JS default-to-zero coalescing is folded into the field values. -/
structure Mod where
  hash : Nat
  plugCategoryHash : Nat
  energyCost : Nat
  energyType : EnergyType
deriving DecidableEq, Repr

/-- One entry of `getSpecialtySocketMetadatas`: socket metadata with its
compatible mod tags (`ModSocketMetadata`). -/
structure ModSocketMetadata where
  compatibleModTags : List String
deriving DecidableEq, Repr

/-- One armour piece (`DimItem`).  `energyCapacity` models
`item.energy?.energyCapacity || 0`, `energyType` models
`item.energy?.energyType || DestinyEnergyType.Any`, and
`socketMetadata` is the (external, per-item) result of
`getSpecialtySocketMetadatas(item)`. -/
structure Item where
  id : String
  bucketHash : Nat
  energyCapacity : Nat
  energyType : EnergyType
  socketMetadata : Option (List ModSocketMetadata)
deriving DecidableEq, Repr

/-- The per-item record `{ assigned, unassigned }` (`ModAssignments`). -/
structure ModAssignments where
  assigned : List Mod
  unassigned : List Mod
deriving DecidableEq, Repr

/-- A JS `Map` keyed by item id, as an insertion-ordered association list. -/
abbrev AssignMap := List (String × ModAssignments)

/-- Lookup in an association list (JS `Map.get`). -/
def mapGet {α : Type} : List (String × α) → String → Option α
  | [], _ => none
  | (k1, v) :: rest, k => if k1 = k then some v else mapGet rest k

/-- Update in an association list (JS `Map.set`): an existing key keeps
its position, a new key is appended at the end. -/
def mapSet {α : Type} : List (String × α) → String → α → List (String × α)
  | [], k, v => [(k, v)]
  | (k1, v1) :: rest, k, v =>
    if k1 = k then (k, v) :: rest else (k1, v1) :: mapSet rest k v

/-- Lodash `_.keyBy(items, item => item.id)` lookup: the LAST item with
the given id wins (later object-property writes overwrite earlier ones). -/
def keyByItem : List Item → String → Option Item
  | [], _ => none
  | item :: rest, k =>
    match keyByItem rest k with
    | some found => some found
    | none => if item.id = k then some item else none

/-- Lodash `_.sumBy(mods, mod => mod.plug.energyCost?.energyCost || 0)`. -/
def costSum (mods : List Mod) : Nat :=
  (mods.map (fun mod => mod.energyCost)).sum

/-- The precomputed energy information of one item (`ItemEnergy`). -/
structure ItemEnergy where
  used : Nat
  originalCapacity : Nat
  derivedCapacity : Nat
  originalType : EnergyType
  derivedType : EnergyType
deriving DecidableEq, Repr

/-- The manifest-definitions handle together with the external pure
collaborators consumed by the source file.  `maxEnergy` is
`upgradeSpendTierToMaxEnergy(defs, tier, item)`, `itemEnergyType` is
`getItemEnergyType(defs, item, tier, lock, assignedMods)`, `modTypeTag`
is `getModTypeTagByPlugCategoryHash`, `generalHash` is
`armor2PlugCategoryHashesByName.general`, `combatHashes` is
`combatCompatiblePlugCategoryHashes`, `activityHashes` is
`activityModPlugCategoryHashes`, and `bucketsToCategories` maps a bucket
hash to the plug category hash of the bucket-specific mods of that slot. -/
structure Defs where
  maxEnergy : Nat → Item → Nat
  itemEnergyType : Item → Nat → Bool → List Mod → EnergyType
  modTypeTag : Nat → Option String
  generalHash : Nat
  combatHashes : List Nat
  activityHashes : List Nat
  bucketsToCategories : Nat → Option Nat

/-- Modelled from the spec: `isModEnergyValid` lives in
`app/loadout-builder/mod-assignments`, which is not under src/.  Per
spec section 4.2 the general (shared-pool) validity is the same
capacity/type rule as bucket-specific validity, generalized to accept a
variable list of already-assigned items whose costs sum into the
consumed-so-far figure: the mod type must equal the derived type or
either must be the wildcard, and consumed plus assigned costs plus the
mod cost must not exceed the derived capacity. -/
def isModEnergyValid (itemEnergy : ItemEnergy) (mod : Mod) (assignedMods : List Mod) : Bool :=
  let energyUsed := itemEnergy.used + costSum assignedMods
  let energyTypeIsValid :=
    mod.energyType == itemEnergy.derivedType || mod.energyType == 0 ||
      itemEnergy.derivedType == 0
  energyTypeIsValid && decide (energyUsed + mod.energyCost ≤ itemEnergy.derivedCapacity)

/-- All ways of inserting one element into a list. -/
def insertEverywhere {α : Type} (x : α) : List α → List (List α)
  | [] => [[x]]
  | y :: ys => (x :: y :: ys) :: (insertEverywhere x ys).map (fun zs => y :: zs)

/-- All orderings of a list (each one obtained by repeated insertion). -/
def allOrderings {α : Type} : List α → List (List α)
  | [] => [[]]
  | x :: xs => (allOrderings xs).flatMap (insertEverywhere x)

/-- Modelled from the spec: `generateModPermutations` lives in
`app/loadout-builder/mod-permutations`, which is not under src/.  Per
spec sections 4.4 and 6 it produces every ordering of the pool items
across the slot positions, shorter pools padded with an absent marker
(the enumeration is exhaustive; its order is unspecified). -/
def generateModPermutations (slotCount : Nat) (mods : List Mod) : List (List (Option Mod)) :=
  allOrderings ((mods.map some) ++ List.replicate (slotCount - mods.length) none)

/-- Source lines 290-304: `buildItemEnergy`. -/
def buildItemEnergy (defs : Defs) (item : Item) (assignedMods : List Mod)
    (upgradeSpendTier : Nat) (lockItemEnergyType : Bool) : ItemEnergy :=
  { used := costSum assignedMods
    originalCapacity := item.energyCapacity
    derivedCapacity := defs.maxEnergy upgradeSpendTier item
    originalType := item.energyType
    derivedType := defs.itemEnergyType item upgradeSpendTier lockItemEnergyType assignedMods }

/-- Source lines 306-331: `isBucketSpecificModValid`. -/
def isBucketSpecificModValid (defs : Defs) (upgradeSpendTier : Nat)
    (lockItemEnergyType : Bool) (item : Item) (mod : Mod) (assignedMods : List Mod) : Bool :=
  let itemEnergyCapacity := defs.maxEnergy upgradeSpendTier item
  let itemEnergyType := defs.itemEnergyType item upgradeSpendTier lockItemEnergyType assignedMods
  let energyUsed := costSum assignedMods
  let modCost := mod.energyCost
  let modEnergyType := mod.energyType
  let energyTypeIsValid :=
    modEnergyType == itemEnergyType || modEnergyType == 0 || itemEnergyType == 0
  energyTypeIsValid && decide (energyUsed + modCost ≤ itemEnergyCapacity)

/-- Source lines 333-346: `isActivityModValid`.  The JS expression
`isModEnergyValid(itemEnergy, activityMod) && modTag &&
itemSocketMetadata?.some(m => m.compatibleModTags.includes(modTag))`
is falsy when `modTag` is `undefined` or when `itemSocketMetadata` is
`undefined`. -/
def isActivityModValid (defs : Defs) (activityMod : Mod)
    (itemSocketMetadata : Option (List ModSocketMetadata)) (itemEnergy : ItemEnergy) : Bool :=
  let modTag := defs.modTypeTag activityMod.plugCategoryHash
  isModEnergyValid itemEnergy activityMod [] &&
    match modTag with
    | none => false
    | some tag =>
      (itemSocketMetadata.getD []).any fun metadata => metadata.compatibleModTags.contains tag

/-- Source lines 348-362: `isCombatModValid`; identical to
`isActivityModValid` except that the mods already assigned to the slot
in this round are passed on to the energy-validity check. -/
def isCombatModValid (defs : Defs) (combatMod : Mod) (assignedMods : List Mod)
    (itemSocketMetadata : Option (List ModSocketMetadata)) (itemEnergy : ItemEnergy) : Bool :=
  let modTag := defs.modTypeTag combatMod.plugCategoryHash
  isModEnergyValid itemEnergy combatMod assignedMods &&
    match modTag with
    | none => false
    | some tag =>
      (itemSocketMetadata.getD []).any fun metadata => metadata.compatibleModTags.contains tag

/-- Source lines 368-376: the for/break loop of `calculateEnergyChange`
resolving the final energy type.  The loop breaks as soon as the running
value is not `Any`; otherwise a mod with a truthy (non-`Any`) energy
type overwrites it. -/
def finalEnergyLoop (finalEnergy : EnergyType) : List Mod → EnergyType
  | [] => finalEnergy
  | mod :: rest =>
    if finalEnergy ≠ 0 then finalEnergy
    else if mod.energyType ≠ 0 then finalEnergyLoop mod.energyType rest
    else finalEnergyLoop finalEnergy rest

/-- Source lines 364-386: `calculateEnergyChange`.  `Math.max(0, x - y)`
over non-negative integers coincides with truncated subtraction. -/
def calculateEnergyChange (itemEnergy : ItemEnergy) (assignedMods : List Mod) : Nat :=
  let finalEnergy := finalEnergyLoop itemEnergy.derivedType assignedMods
  let modCost := itemEnergy.used + costSum assignedMods
  let energyUsedAndWasted := modCost + itemEnergy.originalCapacity
  let energyInvested := max 0 (modCost - itemEnergy.originalCapacity)
  if finalEnergy = itemEnergy.originalType ∨ finalEnergy = 0 then energyInvested
  else energyUsedAndWasted

/-- State of the categorization loop of source lines 137-172: the three
shared pools plus the bucket-specific assignment map. -/
structure PrePassState where
  generalMods : List Mod
  combatMods : List Mod
  activityMods : List Mod
  bucketSpecificAssignments : AssignMap
deriving DecidableEq, Repr

/-- The JS `bucketSpecificAssignments.get(k)?.assigned.push(mod)`: a
missing entry makes the optional chain a no-op. -/
def pushAssigned (m : AssignMap) (k : String) (mod : Mod) : AssignMap :=
  match mapGet m k with
  | none => m
  | some entry => mapSet m k ⟨entry.assigned ++ [mod], entry.unassigned⟩

/-- The JS `bucketSpecificAssignments.get(k)?.unassigned.push(mod)`. -/
def pushUnassigned (m : AssignMap) (k : String) (mod : Mod) : AssignMap :=
  match mapGet m k with
  | none => m
  | some entry => mapSet m k ⟨entry.assigned, entry.unassigned ++ [mod]⟩

/-- One iteration of the `for (const mod of mods)` loop of source lines
144-172: dispatch the mod to the general / combat / activity pool, or
treat it as bucket-specific and greedily validate it against the items
already assigned to its target item. -/
def categorizeStep (defs : Defs) (upgradeSpendTier : Nat) (lockItemEnergyType : Bool)
    (items : List Item) (st : PrePassState) (mod : Mod) : PrePassState :=
  if mod.plugCategoryHash = defs.generalHash then
    { st with generalMods := st.generalMods ++ [mod] }
  else if defs.combatHashes.contains mod.plugCategoryHash then
    { st with combatMods := st.combatMods ++ [mod] }
  else if defs.activityHashes.contains mod.plugCategoryHash then
    { st with activityMods := st.activityMods ++ [mod] }
  else
    match items.find? fun item =>
        some mod.plugCategoryHash = defs.bucketsToCategories item.bucketHash with
    | none => st
    | some itemForMod =>
      if isBucketSpecificModValid defs upgradeSpendTier lockItemEnergyType itemForMod mod
          (((mapGet st.bucketSpecificAssignments itemForMod.id).map
            ModAssignments.assigned).getD []) then
        { st with bucketSpecificAssignments :=
            pushAssigned st.bucketSpecificAssignments itemForMod.id mod }
      else
        { st with bucketSpecificAssignments :=
            pushUnassigned st.bucketSpecificAssignments itemForMod.id mod }

/-- Source lines 125-128: both maps are initialized with an empty
`{ assigned: [], unassigned: [] }` record per item. -/
def initAssignments (items : List Item) : AssignMap :=
  items.foldl (fun m item => mapSet m item.id ⟨[], []⟩) []

/-- The complete greedy pre-assignment pass (source lines 137-172). -/
def prePass (defs : Defs) (upgradeSpendTier : Nat) (lockItemEnergyType : Bool)
    (items : List Item) (mods : List Mod) : PrePassState :=
  mods.foldl (categorizeStep defs upgradeSpendTier lockItemEnergyType items)
    ⟨[], [], [], initAssignments items⟩

/-- Source lines 132-135 as a lookup: `itemSocketMetadata[k]`, built via
`_.mapValues(_.keyBy(items, id), getSpecialtySocketMetadatas)`; a
missing key and an `undefined` metadata both read as `undefined`. -/
def itemSocketMetadataFor (items : List Item) (k : String) : Option (List ModSocketMetadata) :=
  (keyByItem items k).bind Item.socketMetadata

/-- Source lines 177-187 as a lookup: `itemEnergies[k]`; the loop only
ever indexes at ids of items, so the default branch is never reached. -/
def itemEnergiesFor (defs : Defs) (upgradeSpendTier : Nat) (lockItemEnergyType : Bool)
    (items : List Item) (bucket : AssignMap) (k : String) : ItemEnergy :=
  match keyByItem items k with
  | none => ⟨0, 0, 0, 0, 0⟩
  | some item =>
    buildItemEnergy defs item
      (((mapGet bucket item.id).map ModAssignments.assigned).getD [])
      upgradeSpendTier lockItemEnergyType

/-- The read-only context of the permutation search: the definitions,
the configuration flags, the item list and the frozen bucket-specific
assignments of the pre-assignment pass. -/
structure SearchCtx where
  defs : Defs
  upgradeSpendTier : Nat
  lockItemEnergyType : Bool
  items : List Item
  bucket : AssignMap

/-- Shorthand for `itemSocketMetadata[k]` in a search context. -/
def ctxMeta (ctx : SearchCtx) (k : String) : Option (List ModSocketMetadata) :=
  itemSocketMetadataFor ctx.items k

/-- Shorthand for `itemEnergies[k]` in a search context. -/
def ctxEnergy (ctx : SearchCtx) (k : String) : ItemEnergy :=
  itemEnergiesFor ctx.defs ctx.upgradeSpendTier ctx.lockItemEnergyType ctx.items ctx.bucket k

/-- One push stage of the slot loop: if the candidate is present and
valid for the current assigned list it is appended to assigned,
otherwise (still present) it is appended to unassigned. -/
def slotStage (valid : List Mod → Mod → Bool) (modOpt : Option Mod)
    (au : List Mod × List Mod) : List Mod × List Mod :=
  match modOpt with
  | none => au
  | some mod => if valid au.1 mod then (au.1 ++ [mod], au.2) else (au.1, au.2 ++ [mod])

/-- Source lines 200-234: the body of one slot iteration, trying the
activity candidate, then the combat candidate (validated against what
was assigned this round), then the general candidate. -/
def evalSlot (defs : Defs) (meta : Option (List ModSocketMetadata)) (energy : ItemEnergy)
    (activityMod combatMod generalMod : Option Mod) : List Mod × List Mod :=
  slotStage (fun assigned mod => isModEnergyValid energy mod assigned) generalMod
    (slotStage (fun assigned mod => isCombatModValid defs mod assigned meta energy) combatMod
      (slotStage (fun _ mod => isActivityModValid defs mod meta energy) activityMod ([], [])))

/-- Indexing `permutation[i]`: out-of-range and the absent padding both
read as "no candidate". -/
def permAt (perm : List (Option Mod)) (i : Nat) : Option Mod :=
  (perm.get? i).getD none

/-- The slot result of position `i` of a triple, as a `ModAssignments`
record keyed purely by the item id `k`. -/
def evalSlotAt (ctx : SearchCtx) (activityPerm combatPerm generalPerm : List (Option Mod))
    (k : String) (i : Nat) : ModAssignments :=
  let result := evalSlot ctx.defs (ctxMeta ctx k) (ctxEnergy ctx k)
    (permAt activityPerm i) (permAt combatPerm i) (permAt generalPerm i)
  ⟨result.1, result.2⟩

/-- Source lines 199-242: the `for (let i = 0; ...)` loop over items for
one permutation triple, with the early-abandonment check of lines
236-238 (`continue modLoop`, modelled as `none`). -/
def itemLoop (ctx : SearchCtx) (activityPerm combatPerm generalPerm : List (Option Mod))
    (best : Nat) : List Item → Nat → Nat → AssignMap → Option (AssignMap × Nat)
  | [], _, unassignedModCount, assignments => some (assignments, unassignedModCount)
  | item :: rest, i, unassignedModCount, assignments =>
    let slotResult := evalSlotAt ctx activityPerm combatPerm generalPerm item.id i
    if unassignedModCount + slotResult.unassigned.length > best then none
    else
      itemLoop ctx activityPerm combatPerm generalPerm best rest (i + 1)
        (unassignedModCount + slotResult.unassigned.length)
        (mapSet assignments item.id slotResult)

/-- Source lines 245-248: total energy used and wasted of one candidate
assignment map (iteration order of a JS `Map` is insertion order). -/
def scoreAssignments (ctx : SearchCtx) (assignments : AssignMap) : Nat :=
  (assignments.map fun entry =>
    calculateEnergyChange (ctxEnergy ctx entry.1) entry.2.assigned).sum

/-- The mutable search state: the best-so-far candidate and its two
scoring keys (source lines 118-123). -/
structure SearchState where
  bucketIndependentAssignments : AssignMap
  assignmentEnergyCost : Nat
  assignmentUnassignedModCount : Nat
deriving DecidableEq, Repr

/-- Source lines 195-261: evaluation of one permutation triple,
including the replacement rule of lines 252-260. -/
def stepTriple (ctx : SearchCtx) (st : SearchState)
    (activityPerm combatPerm generalPerm : List (Option Mod)) : SearchState :=
  match itemLoop ctx activityPerm combatPerm generalPerm
      st.assignmentUnassignedModCount ctx.items 0 0 [] with
  | none => st
  | some (assignments, unassignedModCount) =>
    let energyUsedAndWasted := scoreAssignments ctx assignments
    if decide (unassignedModCount < st.assignmentUnassignedModCount) ||
        (decide (unassignedModCount ≤ st.assignmentUnassignedModCount) &&
          decide (energyUsedAndWasted < st.assignmentEnergyCost)) then
      ⟨assignments, energyUsedAndWasted, unassignedModCount⟩
    else st

/-- Source lines 193-263: the triple-nested permutation enumeration
(activity outermost, general innermost). -/
def searchLoop (ctx : SearchCtx) (activityPerms combatPerms generalPerms : List (List (Option Mod)))
    (st : SearchState) : SearchState :=
  activityPerms.foldl
    (fun st1 activityPerm =>
      combatPerms.foldl
        (fun st2 combatPerm =>
          generalPerms.foldl
            (fun st3 generalPerm => stepTriple ctx st3 activityPerm combatPerm generalPerm)
            st2)
        st1)
    st

/-- The search context built by `getCheapestModAssignments` after the
pre-assignment pass. -/
def mkCtx (defs : Defs) (upgradeSpendTier : Nat) (lockItemEnergyType : Bool)
    (items : List Item) (mods : List Mod) : SearchCtx :=
  ⟨defs, upgradeSpendTier, lockItemEnergyType, items,
    (prePass defs upgradeSpendTier lockItemEnergyType items mods).bucketSpecificAssignments⟩

/-- Source line 193: `generateModPermutations(activityMods)`. -/
def activityPerms (defs : Defs) (upgradeSpendTier : Nat) (lockItemEnergyType : Bool)
    (items : List Item) (mods : List Mod) : List (List (Option Mod)) :=
  generateModPermutations items.length
    (prePass defs upgradeSpendTier lockItemEnergyType items mods).activityMods

/-- Source line 190: `generateModPermutations(combatMods)`. -/
def combatPerms (defs : Defs) (upgradeSpendTier : Nat) (lockItemEnergyType : Bool)
    (items : List Item) (mods : List Mod) : List (List (Option Mod)) :=
  generateModPermutations items.length
    (prePass defs upgradeSpendTier lockItemEnergyType items mods).combatMods

/-- Source line 189: `generateModPermutations(generalMods)`. -/
def generalPerms (defs : Defs) (upgradeSpendTier : Nat) (lockItemEnergyType : Bool)
    (items : List Item) (mods : List Mod) : List (List (Option Mod)) :=
  generateModPermutations items.length
    (prePass defs upgradeSpendTier lockItemEnergyType items mods).generalMods

/-- The final value of the mutable search state after all triples
(source lines 118-263); `bucketIndependentAssignments` starts as a map
with an empty record per item and both keys start at 10000. -/
def searchResult (defs : Defs) (upgradeSpendTier : Nat) (lockItemEnergyType : Bool)
    (items : List Item) (mods : List Mod) : SearchState :=
  searchLoop (mkCtx defs upgradeSpendTier lockItemEnergyType items mods)
    (activityPerms defs upgradeSpendTier lockItemEnergyType items mods)
    (combatPerms defs upgradeSpendTier lockItemEnergyType items mods)
    (generalPerms defs upgradeSpendTier lockItemEnergyType items mods)
    ⟨initAssignments items, 10000, 10000⟩

/-- The merged assigned list of one slot (source lines 268-271): the
winning search assignment first, the bucket-specific assignment second.
The value depends on the slot id only. -/
def mergedAssigned (defs : Defs) (upgradeSpendTier : Nat) (lockItemEnergyType : Bool)
    (items : List Item) (mods : List Mod) (k : String) : List Mod :=
  (((mapGet (searchResult defs upgradeSpendTier lockItemEnergyType items
      mods).bucketIndependentAssignments k).map ModAssignments.assigned).getD []) ++
  (((mapGet (prePass defs upgradeSpendTier lockItemEnergyType items
      mods).bucketSpecificAssignments k).map ModAssignments.assigned).getD [])

/-- The flat unassigned list (source lines 266 and 272-276): per item,
the unassigned items of the winning search assignment followed by the
unassigned items of the bucket-specific pass. -/
def unassignedList (defs : Defs) (upgradeSpendTier : Nat) (lockItemEnergyType : Bool)
    (items : List Item) (mods : List Mod) : List Mod :=
  items.foldl
    (fun unassigned item =>
      unassigned ++
      (((mapGet (searchResult defs upgradeSpendTier lockItemEnergyType items
          mods).bucketIndependentAssignments item.id).map ModAssignments.unassigned).getD []) ++
      (((mapGet (prePass defs upgradeSpendTier lockItemEnergyType items
          mods).bucketSpecificAssignments item.id).map ModAssignments.unassigned).getD []))
    []

/-- Source lines 107-280: `getCheapestModAssignments`.  The absent
manifest definitions (line 114-116) short-circuit to an empty map and an
empty list; otherwise the pre-assignment pass, the permutation search
and the merge of lines 265-279 run in sequence. -/
def getCheapestModAssignments (items : List Item) (mods : List Mod) (defs : Option Defs)
    (upgradeSpendTier : Nat) (lockItemEnergyType : Bool) :
    List (String × List Mod) × List Mod :=
  match defs with
  | none => ([], [])
  | some defs =>
    (items.foldl
      (fun mergedResults item =>
        mapSet mergedResults item.id
          (mergedAssigned defs upgradeSpendTier lockItemEnergyType items mods item.id))
      [],
     unassignedList defs upgradeSpendTier lockItemEnergyType items mods)

/-- Written from the words of the spec (section 4.5, for claim C5): the
final type of a slot is the derived type unless that is the wildcard, in
which case it is the first concrete type among the assigned items in
scan order. -/
def finalTypeSpec (itemEnergy : ItemEnergy) (assignedMods : List Mod) : EnergyType :=
  if itemEnergy.derivedType ≠ 0 then itemEnergy.derivedType
  else
    match assignedMods.find? fun mod => mod.energyType != 0 with
    | some mod => mod.energyType
    | none => 0

/-- Written from the words of the spec (section 4.5, for claim C5): the
energy-change score is `max(0, totalCost - originalCapacity)` when the
final type equals the original type or is the wildcard, and
`totalCost + originalCapacity` otherwise, with `totalCost` the consumed
figure plus the sum of the assigned mod costs. -/
def energyChangeSpec (itemEnergy : ItemEnergy) (assignedMods : List Mod) : Nat :=
  let totalCost := itemEnergy.used + costSum assignedMods
  let finalType := finalTypeSpec itemEnergy assignedMods
  if finalType = itemEnergy.originalType ∨ finalType = 0 then
    max 0 (totalCost - itemEnergy.originalCapacity)
  else totalCost + itemEnergy.originalCapacity

/-- A small concrete instantiation of the external collaborators, used
by the concrete evaluations below: every slot has derived capacity 10
and the wildcard derived type, plug category hash 50 resolves to the tag
"tag", general mods have plug category hash 1, combat mods hash 2,
activity mods hash 3, and bucket hash 100 holds the bucket-specific mods
of plug category hash 7. -/
def exDefs : Defs :=
  { maxEnergy := fun _ _ => 10
    itemEnergyType := fun _ _ _ _ => 0
    modTypeTag := fun hash => if hash = 50 then some "tag" else none
    generalHash := 1
    combatHashes := [2]
    activityHashes := [3]
    bucketsToCategories := fun bucket => if bucket = 100 then some 7 else none }

/-- A concrete item: id "i", bucket hash 100, original capacity 10,
wildcard original type, no specialty sockets. -/
def exItem : Item := ⟨"i", 100, 10, 0, none⟩

/-- A concrete bucket-specific mod for bucket 100 (category hash 7),
cost 1. -/
def exBucketMod : Mod := ⟨10, 7, 1, 0⟩

/-- A concrete general mod (category hash 1), cost 1. -/
def exGeneralMod : Mod := ⟨11, 1, 1, 0⟩

/-- A concrete mod whose category hash 99 is not recognized by any pool
and matches no item bucket. -/
def exStrayMod : Mod := ⟨12, 99, 1, 0⟩

/-- A concrete general mod whose cost 20 exceeds every derived capacity
of `exDefs`. -/
def exBigMod : Mod := ⟨13, 1, 20, 0⟩

/-- The concrete search context over `exItem` with no mods. -/
def exCtx : SearchCtx := mkCtx exDefs 0 false [exItem] []

/-- A concrete search context with no items at all. -/
def exCtxEmpty : SearchCtx := mkCtx exDefs 0 false [] []

/-!  Helper lemmas. -/

/-- The final-energy loop returns its argument unchanged once the
running value is concrete (the `break` of source line 371-372). -/
theorem finalEnergyLoop_of_ne (t : EnergyType) (mods : List Mod) (h : t ≠ 0) :
    finalEnergyLoop t mods = t := by
  cases mods with
  | nil => rfl
  | cons m rest => simp [finalEnergyLoop, h]

/-- The final-energy loop computes the first concrete type in scan
order, in `List.find?` form. -/
theorem finalEnergyLoop_eq_find (t : EnergyType) (mods : List Mod) :
    finalEnergyLoop t mods =
      if t ≠ 0 then t
      else
        match mods.find? fun mod => mod.energyType != 0 with
        | some mod => mod.energyType
        | none => 0 := by
  induction mods with
  | nil =>
    by_cases h : t = 0 <;> simp [finalEnergyLoop, h]
  | cons m rest ih =>
    by_cases h : t = 0
    · subst h
      by_cases hm : m.energyType = 0
      · simpa [finalEnergyLoop, hm, List.find?_cons] using ih
      · simp [finalEnergyLoop, hm, List.find?_cons, finalEnergyLoop_of_ne m.energyType rest hm]
    · simp [finalEnergyLoop, h]

/-- Looking up the key just set returns the new value. -/
theorem mapGet_mapSet_self {α : Type} (m : List (String × α)) (k : String) (v : α) :
    mapGet (mapSet m k v) k = some v := by
  induction m with
  | nil => simp [mapSet, mapGet]
  | cons p rest ih =>
    obtain ⟨k1, v1⟩ := p
    by_cases h : k1 = k
    · simp [mapSet, h, mapGet]
    · simp [mapSet, h, mapGet, ih]

/-- Setting one key leaves the lookup of any other key unchanged. -/
theorem mapGet_mapSet_ne {α : Type} (m : List (String × α)) (k k2 : String) (v : α)
    (h : k ≠ k2) : mapGet (mapSet m k v) k2 = mapGet m k2 := by
  induction m with
  | nil => simp [mapSet, mapGet, h]
  | cons p rest ih =>
    obtain ⟨k1, v1⟩ := p
    by_cases h1 : k1 = k
    · subst h1
      simp [mapSet, mapGet, h]
    · simp only [mapSet, if_neg h1, mapGet, ih]

/-- Lookup after a fold of per-item `mapSet` writes whose value depends
only on the key: any key seeded correctly or covered by the item list
reads back its value. -/
theorem foldl_mapSet_lookup {α : Type} (g : String → α) :
    ∀ (items : List Item) (init : List (String × α)) (k : String),
      (mapGet init k = some (g k) ∨ ∃ item ∈ items, item.id = k) →
      mapGet (items.foldl (fun m item => mapSet m item.id (g item.id)) init) k = some (g k) := by
  intro items
  induction items with
  | nil =>
    intro init k h
    rcases h with h | ⟨item, hmem, -⟩
    · exact h
    · exact absurd hmem (List.not_mem_nil item)
  | cons x xs ih =>
    intro init k h
    simp only [List.foldl_cons]
    apply ih
    by_cases hx : x.id = k
    · left
      rw [← hx]
      exact mapGet_mapSet_self init x.id (g x.id)
    · rcases h with h | ⟨item, hmem, hid⟩
      · left
        rw [mapGet_mapSet_ne init x.id k (g x.id) hx]
        exact h
      · rcases List.mem_cons.mp hmem with rfl | hmem2
        · exact absurd hid hx
        · right
          exact ⟨item, hmem2, hid⟩

/-- Lookup after a fold of per-item `mapSet` writes whose value depends
only on the key, reverse direction: any value read back is the value
function of the key, provided the seed map already satisfied that. -/
theorem foldl_mapSet_lookup_inv {α : Type} (g : String → α) :
    ∀ (items : List Item) (init : List (String × α)) (k : String) (v : α),
      (∀ v1, mapGet init k = some v1 → v1 = g k) →
      mapGet (items.foldl (fun m item => mapSet m item.id (g item.id)) init) k = some v →
      v = g k := by
  intro items
  induction items with
  | nil =>
    intro init k v hinit h
    exact hinit v h
  | cons x xs ih =>
    intro init k v hinit h
    refine ih (mapSet init x.id (g x.id)) k v ?_ h
    intro v1 hv1
    by_cases hx : x.id = k
    · rw [← hx, mapGet_mapSet_self] at hv1
      rw [← hx]
      exact (Option.some.injEq _ _ ▸ hv1).symm
    · rw [mapGet_mapSet_ne init x.id k (g x.id) hx] at hv1
      exact hinit v1 hv1

/-- A left fold preserves an invariant preserved by every step. -/
theorem foldl_preserves {α σ : Type} (f : σ → α → σ) (P : σ → Prop) :
    ∀ (l : List α) (s : σ), P s → (∀ t a, a ∈ l → P t → P (f t a)) → P (l.foldl f s) := by
  intro l
  induction l with
  | nil => intro s h _; exact h
  | cons x xs ih =>
    intro s h hstep
    exact ih (f s x) (hstep s x (List.mem_cons_self x xs) h)
      fun t a ha ht => hstep t a (List.mem_cons_of_mem x ha) ht

/-- The keyBy lookup misses when no item has the key as id. -/
theorem keyByItem_eq_none (k : String) :
    ∀ (items : List Item), (∀ item ∈ items, item.id ≠ k) → keyByItem items k = none := by
  intro items
  induction items with
  | nil => intro _; rfl
  | cons x xs ih =>
    intro h
    simp only [keyByItem, ih fun item hm => h item (List.mem_cons_of_mem x hm)]
    rw [if_neg (h x (List.mem_cons_self x xs))]

/-- Under distinct ids, the keyBy lookup of the id of a member returns
that member. -/
theorem keyByItem_nodup (items : List Item) (hnodup : (items.map Item.id).Nodup)
    (item : Item) (hmem : item ∈ items) : keyByItem items item.id = some item := by
  induction items with
  | nil => exact absurd hmem (List.not_mem_nil item)
  | cons x xs ih =>
    rw [List.map_cons, List.nodup_cons] at hnodup
    rcases List.mem_cons.mp hmem with rfl | hmem2
    · have hnone : keyByItem xs item.id = none := by
        refine keyByItem_eq_none item.id xs fun it hm heq => ?_
        exact hnodup.1 (heq ▸ List.mem_map_of_mem Item.id hm)
      simp [keyByItem, hnone]
    · simp only [keyByItem, ih hnodup.2 hmem2]

/-- Under distinct ids, two members with the same id are the same item. -/
theorem nodup_id_inj (items : List Item) (hnodup : (items.map Item.id).Nodup) :
    ∀ a ∈ items, ∀ b ∈ items, a.id = b.id → a = b := by
  induction items with
  | nil => intro a ha; exact absurd ha (List.not_mem_nil a)
  | cons x xs ih =>
    rw [List.map_cons, List.nodup_cons] at hnodup
    intro a ha b hb heq
    rcases List.mem_cons.mp ha with rfl | ha2 <;> rcases List.mem_cons.mp hb with rfl | hb2
    · rfl
    · exact absurd (heq ▸ List.mem_map_of_mem Item.id hb2) hnodup.1
    · exact absurd (heq ▸ List.mem_map_of_mem Item.id ha2) hnodup.1
    · exact ih hnodup.2 a ha2 b hb2 heq

/-- Cost sums distribute over append. -/
theorem costSum_append (a b : List Mod) : costSum (a ++ b) = costSum a + costSum b := by
  simp [costSum]

/-- The capacity conjunct of the spec-modelled shared-pool validity. -/
theorem isModEnergyValid_capacity (itemEnergy : ItemEnergy) (mod : Mod)
    (assignedMods : List Mod) (h : isModEnergyValid itemEnergy mod assignedMods = true) :
    itemEnergy.used + costSum assignedMods + mod.energyCost ≤ itemEnergy.derivedCapacity := by
  rw [isModEnergyValid, Bool.and_eq_true, decide_eq_true_eq] at h
  omega

/-- The capacity conjunct of the bucket-specific validity. -/
theorem isBucketSpecificModValid_capacity (defs : Defs) (upgradeSpendTier : Nat)
    (lockItemEnergyType : Bool) (item : Item) (mod : Mod) (assignedMods : List Mod)
    (h : isBucketSpecificModValid defs upgradeSpendTier lockItemEnergyType item mod
      assignedMods = true) :
    costSum assignedMods + mod.energyCost ≤ defs.maxEnergy upgradeSpendTier item := by
  rw [isBucketSpecificModValid, Bool.and_eq_true, decide_eq_true_eq] at h
  omega

/-- The capacity conjunct of the activity validity (whose energy check
runs against an empty assigned list). -/
theorem isActivityModValid_capacity (defs : Defs) (mod : Mod)
    (meta : Option (List ModSocketMetadata)) (itemEnergy : ItemEnergy)
    (h : isActivityModValid defs mod meta itemEnergy = true) :
    itemEnergy.used + mod.energyCost ≤ itemEnergy.derivedCapacity := by
  rw [isActivityModValid, Bool.and_eq_true] at h
  have := isModEnergyValid_capacity itemEnergy mod [] h.1
  simpa [costSum] using this

/-- The capacity conjunct of the combat validity. -/
theorem isCombatModValid_capacity (defs : Defs) (mod : Mod) (assignedMods : List Mod)
    (meta : Option (List ModSocketMetadata)) (itemEnergy : ItemEnergy)
    (h : isCombatModValid defs mod assignedMods meta itemEnergy = true) :
    itemEnergy.used + costSum assignedMods + mod.energyCost ≤ itemEnergy.derivedCapacity := by
  rw [isCombatModValid, Bool.and_eq_true] at h
  exact isModEnergyValid_capacity itemEnergy mod assignedMods h.1

/-- One push stage keeps the slot capacity invariant: either nothing is
assigned yet, or consumed plus assigned costs fit the derived capacity. -/
theorem slotStage_capacity (itemEnergy : ItemEnergy) (valid : List Mod → Mod → Bool)
    (modOpt : Option Mod) (au : List Mod × List Mod)
    (hv : ∀ mod, valid au.1 mod = true →
      itemEnergy.used + costSum au.1 + mod.energyCost ≤ itemEnergy.derivedCapacity)
    (h : au.1 = [] ∨ itemEnergy.used + costSum au.1 ≤ itemEnergy.derivedCapacity) :
    (slotStage valid modOpt au).1 = [] ∨
      itemEnergy.used + costSum (slotStage valid modOpt au).1 ≤ itemEnergy.derivedCapacity := by
  cases modOpt with
  | none => exact h
  | some mod =>
    by_cases hval : valid au.1 mod = true
    · right
      simp only [slotStage, hval, if_true]
      rw [costSum_append]
      have hmod : costSum [mod] = mod.energyCost := by simp [costSum]
      have := hv mod hval
      omega
    · rw [Bool.not_eq_true] at hval
      simpa only [slotStage, hval, Bool.false_eq_true, if_false] using h

/-- The slot loop body keeps the slot capacity invariant. -/
theorem evalSlot_capacity (defs : Defs) (meta : Option (List ModSocketMetadata))
    (energy : ItemEnergy) (activityMod combatMod generalMod : Option Mod) :
    (evalSlot defs meta energy activityMod combatMod generalMod).1 = [] ∨
      energy.used + costSum (evalSlot defs meta energy activityMod combatMod generalMod).1 ≤
        energy.derivedCapacity := by
  unfold evalSlot
  refine slotStage_capacity energy _ generalMod _
    (fun mod h => isModEnergyValid_capacity energy mod _ h) ?_
  refine slotStage_capacity energy _ combatMod _
    (fun mod h => isCombatModValid_capacity defs mod _ meta energy h) ?_
  refine slotStage_capacity energy _ activityMod ([], [])
    (fun mod h => ?_) (Or.inl rfl)
  have := isActivityModValid_capacity defs mod meta energy h
  simpa [costSum] using this

/-- The per-position slot result keeps the slot capacity invariant. -/
theorem evalSlotAt_capacity (ctx : SearchCtx)
    (activityPerm combatPerm generalPerm : List (Option Mod)) (k : String) (i : Nat) :
    (evalSlotAt ctx activityPerm combatPerm generalPerm k i).assigned = [] ∨
      (ctxEnergy ctx k).used +
          costSum (evalSlotAt ctx activityPerm combatPerm generalPerm k i).assigned ≤
        (ctxEnergy ctx k).derivedCapacity :=
  evalSlot_capacity ctx.defs (ctxMeta ctx k) (ctxEnergy ctx k)
    (permAt activityPerm i) (permAt combatPerm i) (permAt generalPerm i)

/-- Every entry of a completed slot-loop result either comes unchanged
from the accumulator or is the slot result of some processed item at its
position in the triple. -/
theorem itemLoop_entries (ctx : SearchCtx)
    (activityPerm combatPerm generalPerm : List (Option Mod)) (best : Nat) :
    ∀ (procList : List Item) (i count : Nat) (acc res : AssignMap) (tot : Nat),
      itemLoop ctx activityPerm combatPerm generalPerm best procList i count acc =
        some (res, tot) →
      ∀ k v, mapGet res k = some v →
        mapGet acc k = some v ∨
        ∃ j item, procList.get? j = some item ∧ item.id = k ∧
          v = evalSlotAt ctx activityPerm combatPerm generalPerm k (i + j) := by
  intro procList
  induction procList with
  | nil =>
    intro i count acc res tot h k v hget
    rw [itemLoop] at h
    obtain ⟨h1, -⟩ := Prod.mk.injEq .. ▸ Option.some.inj h
    exact Or.inl (h1 ▸ hget)
  | cons item rest ih =>
    intro i count acc res tot h k v hget
    rw [itemLoop] at h
    split at h
    · exact absurd h (by simp)
    · rcases ih (i + 1) _ _ res tot h k v hget with hacc | ⟨j, item2, hj, hid, hval⟩
      · by_cases hk : item.id = k
        · subst hk
          rw [mapGet_mapSet_self] at hacc
          refine Or.inr ⟨0, item, rfl, rfl, ?_⟩
          rw [Nat.add_zero]
          exact (Option.some.inj hacc).symm
        · rw [mapGet_mapSet_ne _ _ _ _ hk] at hacc
          exact Or.inl hacc
      · refine Or.inr ⟨j + 1, item2, by simpa using hj, hid, ?_⟩
        rw [show i + (j + 1) = i + 1 + j by omega]
        exact hval

/-- Every entry of the initial assignment map is the empty record. -/
theorem initAssignments_entries (items : List Item) (k : String) (v : ModAssignments)
    (h : mapGet (initAssignments items) k = some v) : v = ⟨[], []⟩ :=
  foldl_mapSet_lookup_inv (fun _ => (⟨[], []⟩ : ModAssignments)) items [] k v
    (fun v1 hv1 => absurd hv1 (by simp [mapGet])) h

/-- Pushing onto the assigned list of one key leaves other keys alone. -/
theorem pushAssigned_ne (m : AssignMap) (k0 k : String) (mod : Mod) (h : k0 ≠ k) :
    mapGet (pushAssigned m k0 mod) k = mapGet m k := by
  rw [pushAssigned]
  cases hget : mapGet m k0 with
  | none => rfl
  | some v => rw [mapGet_mapSet_ne _ _ _ _ h]

/-- Pushing onto the assigned list of a key appends to that entry. -/
theorem pushAssigned_self (m : AssignMap) (k0 : String) (mod : Mod) :
    mapGet (pushAssigned m k0 mod) k0 =
      (mapGet m k0).map fun v => ⟨v.assigned ++ [mod], v.unassigned⟩ := by
  rw [pushAssigned]
  cases hget : mapGet m k0 with
  | none => simp [hget]
  | some v =>
    rw [mapGet_mapSet_self]
    rfl

/-- Pushing onto the unassigned list of one key leaves other keys alone. -/
theorem pushUnassigned_ne (m : AssignMap) (k0 k : String) (mod : Mod) (h : k0 ≠ k) :
    mapGet (pushUnassigned m k0 mod) k = mapGet m k := by
  rw [pushUnassigned]
  cases hget : mapGet m k0 with
  | none => rfl
  | some v => rw [mapGet_mapSet_ne _ _ _ _ h]

/-- Pushing onto the unassigned list of a key appends to that entry. -/
theorem pushUnassigned_self (m : AssignMap) (k0 : String) (mod : Mod) :
    mapGet (pushUnassigned m k0 mod) k0 =
      (mapGet m k0).map fun v => ⟨v.assigned, v.unassigned ++ [mod]⟩ := by
  rw [pushUnassigned]
  cases hget : mapGet m k0 with
  | none => simp [hget]
  | some v =>
    rw [mapGet_mapSet_self]
    rfl

/-- The greedy pre-assignment pass never overfills a slot: under
distinct ids, every bucket-specific assigned list fits within the
derived capacity of its item. -/
theorem prePass_capacity (defs : Defs) (upgradeSpendTier : Nat) (lockItemEnergyType : Bool)
    (items : List Item) (mods : List Mod) (hnodup : (items.map Item.id).Nodup) :
    ∀ item ∈ items, ∀ v,
      mapGet (prePass defs upgradeSpendTier lockItemEnergyType items
        mods).bucketSpecificAssignments item.id = some v →
      costSum v.assigned ≤ defs.maxEnergy upgradeSpendTier item := by
  have main := foldl_preserves (categorizeStep defs upgradeSpendTier lockItemEnergyType items)
    (fun st => ∀ item ∈ items, ∀ v, mapGet st.bucketSpecificAssignments item.id = some v →
      costSum v.assigned ≤ defs.maxEnergy upgradeSpendTier item)
    mods ⟨[], [], [], initAssignments items⟩ ?_ ?_
  · exact main
  · intro item _ v hv
    rw [initAssignments_entries items item.id v hv]
    exact Nat.zero_le _
  · intro st mod _ hP item hmem v hv
    rw [categorizeStep] at hv
    split at hv
    · exact hP item hmem v hv
    · split at hv
      · exact hP item hmem v hv
      · split at hv
        · exact hP item hmem v hv
        · split at hv
          · exact hP item hmem v hv
          · rename_i itemForMod hfind
            have hmemFor : itemForMod ∈ items := List.mem_of_find?_eq_some hfind
            split at hv
            · rename_i hvalid
              by_cases hk : itemForMod.id = item.id
              · have hsame : item = itemForMod :=
                  nodup_id_inj items hnodup item hmem itemForMod hmemFor hk.symm
                rw [← hk, pushAssigned_self] at hv
                rcases Option.map_eq_some'.mp hv with ⟨old, hold, rfl⟩
                have hcap := isBucketSpecificModValid_capacity defs upgradeSpendTier
                  lockItemEnergyType itemForMod mod _ hvalid
                rw [hold] at hcap
                have hPold := hP item hmem old (hk ▸ hold)
                rw [costSum_append]
                have hmod : costSum [mod] = mod.energyCost := by simp [costSum]
                simp only [Option.map_some', Option.getD_some] at hcap
                rw [hsame]
                omega
              · rw [pushAssigned_ne _ _ _ _ hk] at hv
                exact hP item hmem v hv
            · by_cases hk : itemForMod.id = item.id
              · rw [← hk, pushUnassigned_self] at hv
                rcases Option.map_eq_some'.mp hv with ⟨old, hold, rfl⟩
                exact hP item hmem old (hk ▸ hold)
              · rw [pushUnassigned_ne _ _ _ _ hk] at hv
                exact hP item hmem v hv

/-- Under distinct ids, the precomputed energy lookup of a member item
is the energy record built from that item and its bucket-specific
assigned list. -/
theorem itemEnergiesFor_eq (defs : Defs) (upgradeSpendTier : Nat) (lockItemEnergyType : Bool)
    (items : List Item) (bucket : AssignMap) (hnodup : (items.map Item.id).Nodup)
    (item : Item) (hmem : item ∈ items) :
    itemEnergiesFor defs upgradeSpendTier lockItemEnergyType items bucket item.id =
      buildItemEnergy defs item
        (((mapGet bucket item.id).map ModAssignments.assigned).getD [])
        upgradeSpendTier lockItemEnergyType := by
  rw [itemEnergiesFor, keyByItem_nodup items hnodup item hmem]

/-- Every entry of the final search state is either the untouched
initial empty record or the slot result of some position of some triple
of the three permutation lists. -/
theorem searchLoop_entries (ctx : SearchCtx)
    (activityPermList combatPermList generalPermList : List (List (Option Mod)))
    (st : SearchState)
    (hst : ∀ k v, mapGet st.bucketIndependentAssignments k = some v →
      v = ⟨[], []⟩ ∨
      ∃ ap ∈ activityPermList, ∃ cp ∈ combatPermList, ∃ gp ∈ generalPermList,
        ∃ j, v = evalSlotAt ctx ap cp gp k j) :
    ∀ k v,
      mapGet (searchLoop ctx activityPermList combatPermList generalPermList
        st).bucketIndependentAssignments k = some v →
      v = ⟨[], []⟩ ∨
      ∃ ap ∈ activityPermList, ∃ cp ∈ combatPermList, ∃ gp ∈ generalPermList,
        ∃ j, v = evalSlotAt ctx ap cp gp k j := by
  rw [searchLoop]
  refine foldl_preserves _
    (fun s => ∀ k v, mapGet s.bucketIndependentAssignments k = some v →
      v = ⟨[], []⟩ ∨
      ∃ ap ∈ activityPermList, ∃ cp ∈ combatPermList, ∃ gp ∈ generalPermList,
        ∃ j, v = evalSlotAt ctx ap cp gp k j)
    activityPermList st hst ?_
  intro s1 ap hap hs1
  refine foldl_preserves _
    (fun s => ∀ k v, mapGet s.bucketIndependentAssignments k = some v →
      v = ⟨[], []⟩ ∨
      ∃ ap ∈ activityPermList, ∃ cp ∈ combatPermList, ∃ gp ∈ generalPermList,
        ∃ j, v = evalSlotAt ctx ap cp gp k j)
    combatPermList s1 hs1 ?_
  intro s2 cp hcp hs2
  refine foldl_preserves _
    (fun s => ∀ k v, mapGet s.bucketIndependentAssignments k = some v →
      v = ⟨[], []⟩ ∨
      ∃ ap ∈ activityPermList, ∃ cp ∈ combatPermList, ∃ gp ∈ generalPermList,
        ∃ j, v = evalSlotAt ctx ap cp gp k j)
    generalPermList s2 hs2 ?_
  intro s3 gp hgp hs3
  intro k v hget
  rcases hloop : itemLoop ctx ap cp gp s3.assignmentUnassignedModCount ctx.items 0 0 []
    with - | ⟨assignments, count⟩
  · simp only [stepTriple, hloop] at hget
    exact hs3 k v hget
  · simp only [stepTriple, hloop] at hget
    split at hget
    · rcases itemLoop_entries ctx ap cp gp s3.assignmentUnassignedModCount ctx.items 0 0 []
        assignments count hloop k v hget with hacc | ⟨j, item2, -, -, hval⟩
      · exact absurd hacc (by simp [mapGet])
      · refine Or.inr ⟨ap, hap, cp, hcp, gp, hgp, j, ?_⟩
        simpa using hval
    · exact hs3 k v hget

/-- One push stage appends at most the present candidate at the tail of
the assigned list. -/
theorem slotStage_shape (valid : List Mod → Mod → Bool) (modOpt : Option Mod)
    (au : List Mod × List Mod) :
    ∃ part, (slotStage valid modOpt au).1 = au.1 ++ part ∧
      (part = [] ∨ ∃ m, modOpt = some m ∧ part = [m]) := by
  cases modOpt with
  | none => exact ⟨[], by simp [slotStage], Or.inl rfl⟩
  | some mod =>
    by_cases hval : valid au.1 mod = true
    · exact ⟨[mod], by simp [slotStage, hval], Or.inr ⟨mod, rfl, rfl⟩⟩
    · rw [Bool.not_eq_true] at hval
      exact ⟨[], by simp [slotStage, hval], Or.inl rfl⟩

/-!  Claim theorems. -/

/-- C1, counterexample: on a concrete input with one bucket-specific
mod (placed by the pre-assignment pass) and one general mod (placed by
the search), the merged list of the slot is the search-winner items
followed by the pre-assignment items, not the other way around as the
claim states. -/
theorem merge_order_counterexample :
    mapGet (getCheapestModAssignments [exItem] [exBucketMod, exGeneralMod] (some exDefs) 0
        false).1 "i" = some [exGeneralMod, exBucketMod] ∧
    (((mapGet (prePass exDefs 0 false [exItem]
        [exBucketMod, exGeneralMod]).bucketSpecificAssignments "i").map
      ModAssignments.assigned).getD []) = [exBucketMod] ∧
    (((mapGet (searchResult exDefs 0 false [exItem]
        [exBucketMod, exGeneralMod]).bucketIndependentAssignments "i").map
      ModAssignments.assigned).getD []) = [exGeneralMod] ∧
    [exGeneralMod, exBucketMod] ≠ [exBucketMod] ++ [exGeneralMod] := by
  refine ⟨by decide, by decide, by decide, by decide⟩

/-- C1, amended: for every slot of the result, the merged assigned list
is the search-winner assigned items first and the pre-assignment
(bucket-specific) assigned items appended after them, in that order. -/
theorem merge_order_amended (defs : Defs) (upgradeSpendTier : Nat) (lockItemEnergyType : Bool)
    (items : List Item) (mods : List Mod) (item : Item) (hmem : item ∈ items) :
    mapGet (getCheapestModAssignments items mods (some defs) upgradeSpendTier
        lockItemEnergyType).1 item.id =
      some ((((mapGet (searchResult defs upgradeSpendTier lockItemEnergyType items
          mods).bucketIndependentAssignments item.id).map ModAssignments.assigned).getD []) ++
        (((mapGet (prePass defs upgradeSpendTier lockItemEnergyType items
          mods).bucketSpecificAssignments item.id).map ModAssignments.assigned).getD [])) :=
  foldl_mapSet_lookup (mergedAssigned defs upgradeSpendTier lockItemEnergyType items mods)
    items [] item.id (Or.inr ⟨item, hmem, rfl⟩)

/-- Witness for the amended C1 at a concrete input. -/
theorem merge_order_amended_witness :
    mapGet (getCheapestModAssignments [exItem] [exBucketMod, exGeneralMod] (some exDefs) 0
        false).1 "i" =
      some ((((mapGet (searchResult exDefs 0 false [exItem]
          [exBucketMod, exGeneralMod]).bucketIndependentAssignments "i").map
        ModAssignments.assigned).getD []) ++
        (((mapGet (prePass exDefs 0 false [exItem]
          [exBucketMod, exGeneralMod]).bucketSpecificAssignments "i").map
        ModAssignments.assigned).getD [])) :=
  merge_order_amended exDefs 0 false [exItem] [exBucketMod, exGeneralMod] exItem (by decide)

/-- C2, failing input: a mod whose plug category hash belongs to no
shared pool and matches the bucket of no item is silently dropped: it
reaches neither a per-slot assigned list nor the unassigned list, so
the conservation count claimed by the spec fails (1 mod in, 0 out). -/
theorem unrecognized_mod_dropped :
    getCheapestModAssignments [] [exStrayMod] (some exDefs) 0 false = ([], []) := by
  decide

/-- C7: for every slot of the final merged result (over items with
distinct ids), the total cost of the assigned mods, bucket-specific
plus search-derived, fits within the derived capacity of the slot. -/
theorem capacity_invariant (defs : Defs) (upgradeSpendTier : Nat) (lockItemEnergyType : Bool)
    (items : List Item) (mods : List Mod) (item : Item) (assignedList : List Mod)
    (hnodup : (items.map Item.id).Nodup) (hmem : item ∈ items)
    (h : mapGet (getCheapestModAssignments items mods (some defs) upgradeSpendTier
      lockItemEnergyType).1 item.id = some assignedList) :
    costSum assignedList ≤ defs.maxEnergy upgradeSpendTier item := by
  have hmerged : assignedList =
      mergedAssigned defs upgradeSpendTier lockItemEnergyType items mods item.id :=
    foldl_mapSet_lookup_inv
      (mergedAssigned defs upgradeSpendTier lockItemEnergyType items mods) items [] item.id
      assignedList (fun v1 hv1 => absurd hv1 (by simp [mapGet])) h
  subst hmerged
  rw [mergedAssigned, costSum_append]
  have hbucket : costSum (((mapGet (prePass defs upgradeSpendTier lockItemEnergyType items
      mods).bucketSpecificAssignments item.id).map ModAssignments.assigned).getD []) ≤
      defs.maxEnergy upgradeSpendTier item := by
    rcases hb : mapGet (prePass defs upgradeSpendTier lockItemEnergyType items
        mods).bucketSpecificAssignments item.id with - | bv
    · simp [costSum]
    · simpa using prePass_capacity defs upgradeSpendTier lockItemEnergyType items mods hnodup
        item hmem bv hb
  rcases hw : mapGet (searchResult defs upgradeSpendTier lockItemEnergyType items
      mods).bucketIndependentAssignments item.id with - | wv
  · simpa [costSum] using hbucket
  · unfold searchResult at hw
    have hwent := searchLoop_entries (mkCtx defs upgradeSpendTier lockItemEnergyType items mods)
      (activityPerms defs upgradeSpendTier lockItemEnergyType items mods)
      (combatPerms defs upgradeSpendTier lockItemEnergyType items mods)
      (generalPerms defs upgradeSpendTier lockItemEnergyType items mods)
      ⟨initAssignments items, 10000, 10000⟩
      (fun k v hv => Or.inl (initAssignments_entries items k v hv))
      item.id wv hw
    simp only [Option.map_some', Option.getD_some]
    rcases hwent with rfl | ⟨ap, -, cp, -, gp, -, j, rfl⟩
    · simpa [costSum] using hbucket
    · have hcap := evalSlotAt_capacity
        (mkCtx defs upgradeSpendTier lockItemEnergyType items mods) ap cp gp item.id j
      have henergy : ctxEnergy (mkCtx defs upgradeSpendTier lockItemEnergyType items mods)
          item.id =
          buildItemEnergy defs item
            (((mapGet (prePass defs upgradeSpendTier lockItemEnergyType items
              mods).bucketSpecificAssignments item.id).map ModAssignments.assigned).getD [])
            upgradeSpendTier lockItemEnergyType :=
        itemEnergiesFor_eq defs upgradeSpendTier lockItemEnergyType items _ hnodup item hmem
      rw [henergy] at hcap
      simp only [buildItemEnergy] at hcap
      rcases hcap with hnil | hle
      · rw [hnil]
        simpa [costSum] using hbucket
      · omega

/-- Witness for C7 at a concrete input: the merged list of the only
slot costs 2, within the derived capacity 10. -/
theorem capacity_invariant_witness :
    mapGet (getCheapestModAssignments [exItem] [exBucketMod, exGeneralMod] (some exDefs) 0
        false).1 "i" = some [exGeneralMod, exBucketMod] ∧
    costSum [exGeneralMod, exBucketMod] ≤ exDefs.maxEnergy 0 exItem :=
  ⟨by decide,
   capacity_invariant exDefs 0 false [exItem] [exBucketMod, exGeneralMod] exItem
     [exGeneralMod, exBucketMod] (by decide) (by decide) (by decide)⟩

/-- C10: every slot result built by the search orders its assigned list
by pool, the activity candidate first, the combat candidate next, the
general candidate last, each present only when it was assigned; and
every entry of the winning search state is either still empty or
exactly such a slot result at some position of some examined triple. -/
theorem slot_pool_order (defs : Defs) (upgradeSpendTier : Nat) (lockItemEnergyType : Bool)
    (items : List Item) (mods : List Mod) :
    (∀ (meta : Option (List ModSocketMetadata)) (energy : ItemEnergy)
        (activityMod combatMod generalMod : Option Mod),
      ∃ aPart cPart gPart : List Mod,
        (evalSlot defs meta energy activityMod combatMod generalMod).1 =
          aPart ++ cPart ++ gPart ∧
        (aPart = [] ∨ ∃ m, activityMod = some m ∧ aPart = [m]) ∧
        (cPart = [] ∨ ∃ m, combatMod = some m ∧ cPart = [m]) ∧
        (gPart = [] ∨ ∃ m, generalMod = some m ∧ gPart = [m])) ∧
    (∀ k v,
      mapGet (searchResult defs upgradeSpendTier lockItemEnergyType items
        mods).bucketIndependentAssignments k = some v →
      v.assigned = [] ∨
      ∃ ap ∈ activityPerms defs upgradeSpendTier lockItemEnergyType items mods,
        ∃ cp ∈ combatPerms defs upgradeSpendTier lockItemEnergyType items mods,
          ∃ gp ∈ generalPerms defs upgradeSpendTier lockItemEnergyType items mods,
            ∃ j, v.assigned =
              (evalSlot defs
                (ctxMeta (mkCtx defs upgradeSpendTier lockItemEnergyType items mods) k)
                (ctxEnergy (mkCtx defs upgradeSpendTier lockItemEnergyType items mods) k)
                (permAt ap j) (permAt cp j) (permAt gp j)).1) := by
  constructor
  · intro meta energy activityMod combatMod generalMod
    obtain ⟨aPart, ha1, ha2⟩ := slotStage_shape
      (fun _ mod => isActivityModValid defs mod meta energy) activityMod ([], [])
    obtain ⟨cPart, hc1, hc2⟩ := slotStage_shape
      (fun assigned mod => isCombatModValid defs mod assigned meta energy) combatMod
      (slotStage (fun _ mod => isActivityModValid defs mod meta energy) activityMod ([], []))
    obtain ⟨gPart, hg1, hg2⟩ := slotStage_shape
      (fun assigned mod => isModEnergyValid energy mod assigned) generalMod
      (slotStage (fun assigned mod => isCombatModValid defs mod assigned meta energy) combatMod
        (slotStage (fun _ mod => isActivityModValid defs mod meta energy) activityMod ([], [])))
    refine ⟨aPart, cPart, gPart, ?_, ha2, hc2, hg2⟩
    rw [evalSlot, hg1, hc1, ha1]
    simp
  · intro k v hget
    unfold searchResult at hget
    have hwent := searchLoop_entries
      (mkCtx defs upgradeSpendTier lockItemEnergyType items mods)
      (activityPerms defs upgradeSpendTier lockItemEnergyType items mods)
      (combatPerms defs upgradeSpendTier lockItemEnergyType items mods)
      (generalPerms defs upgradeSpendTier lockItemEnergyType items mods)
      ⟨initAssignments items, 10000, 10000⟩
      (fun k2 v2 hv2 => Or.inl (initAssignments_entries items k2 v2 hv2))
      k v hget
    rcases hwent with rfl | ⟨ap, hap, cp, hcp, gp, hgp, j, rfl⟩
    · exact Or.inl rfl
    · exact Or.inr ⟨ap, hap, cp, hcp, gp, hgp, j, rfl⟩

/-- Witness for C10 at a concrete input: the winning entry of the only
slot holds the general mod, and is a slot result of the examined
triples. -/
theorem slot_pool_order_witness :
    (⟨[exGeneralMod], []⟩ : ModAssignments).assigned = [] ∨
    ∃ ap ∈ activityPerms exDefs 0 false [exItem] [exBucketMod, exGeneralMod],
      ∃ cp ∈ combatPerms exDefs 0 false [exItem] [exBucketMod, exGeneralMod],
        ∃ gp ∈ generalPerms exDefs 0 false [exItem] [exBucketMod, exGeneralMod],
          ∃ j, (⟨[exGeneralMod], []⟩ : ModAssignments).assigned =
            (evalSlot exDefs
              (ctxMeta (mkCtx exDefs 0 false [exItem] [exBucketMod, exGeneralMod]) "i")
              (ctxEnergy (mkCtx exDefs 0 false [exItem] [exBucketMod, exGeneralMod]) "i")
              (permAt ap j) (permAt cp j) (permAt gp j)).1 :=
  (slot_pool_order exDefs 0 false [exItem] [exBucketMod, exGeneralMod]).2 "i"
    ⟨[exGeneralMod], []⟩ (by decide)

/-- C5: for every slot energy record and assigned list, the
energy-change score of the source equals the spec formula, i.e.
`max(0, totalCost - originalCapacity)` when the resolved final type
equals the original type or is the wildcard, and
`totalCost + originalCapacity` otherwise, the final type being the
derived type unless that is the wildcard, in which case the first
concrete type among the assigned mods in scan order. -/
theorem calculateEnergyChange_eq_spec (itemEnergy : ItemEnergy) (assignedMods : List Mod) :
    calculateEnergyChange itemEnergy assignedMods = energyChangeSpec itemEnergy assignedMods := by
  simp only [calculateEnergyChange, energyChangeSpec, finalTypeSpec, finalEnergyLoop_eq_find]

/-- C6: with the manifest definitions absent, the function returns an
empty per-slot assignment and an empty unassigned list (and, being a
total function of its inputs, it raises on no input). -/
theorem no_defs_empty_result (items : List Item) (mods : List Mod)
    (upgradeSpendTier : Nat) (lockItemEnergyType : Bool) :
    getCheapestModAssignments items mods none upgradeSpendTier lockItemEnergyType = ([], []) :=
  rfl

/-- C8: the activity and combat validity predicates return true only if
the mod category resolves to a compatibility tag that lies in one of the
socket-metadata entries of the slot, and a mod without a resolvable tag
is invalid for every slot on these paths. -/
theorem activity_combat_tag_required (defs : Defs) (mod : Mod) (assignedMods : List Mod)
    (meta : Option (List ModSocketMetadata)) (itemEnergy : ItemEnergy) :
    (isActivityModValid defs mod meta itemEnergy = true →
      ∃ tag, defs.modTypeTag mod.plugCategoryHash = some tag ∧
        ∃ metadata ∈ meta.getD [], tag ∈ metadata.compatibleModTags) ∧
    (isCombatModValid defs mod assignedMods meta itemEnergy = true →
      ∃ tag, defs.modTypeTag mod.plugCategoryHash = some tag ∧
        ∃ metadata ∈ meta.getD [], tag ∈ metadata.compatibleModTags) ∧
    (defs.modTypeTag mod.plugCategoryHash = none →
      isActivityModValid defs mod meta itemEnergy = false ∧
      isCombatModValid defs mod assignedMods meta itemEnergy = false) := by
  refine ⟨?_, ?_, ?_⟩
  · intro h
    rw [isActivityModValid, Bool.and_eq_true] at h
    rcases h with ⟨-, h⟩
    cases htag : defs.modTypeTag mod.plugCategoryHash with
    | none => rw [htag] at h; exact absurd h (by simp)
    | some tag =>
      rw [htag] at h
      simp only [List.any_eq_true, List.contains, List.elem_iff] at h
      exact ⟨tag, rfl, h⟩
  · intro h
    rw [isCombatModValid, Bool.and_eq_true] at h
    rcases h with ⟨-, h⟩
    cases htag : defs.modTypeTag mod.plugCategoryHash with
    | none => rw [htag] at h; exact absurd h (by simp)
    | some tag =>
      rw [htag] at h
      simp only [List.any_eq_true, List.contains, List.elem_iff] at h
      exact ⟨tag, rfl, h⟩
  · intro h
    constructor
    · rw [isActivityModValid, h]
      simp
    · rw [isCombatModValid, h]
      simp

/-- Witness for C8 at a concrete input: the stray mod category hash 99
resolves to no tag, so both predicates reject it. -/
theorem activity_combat_tag_required_witness :
    isActivityModValid exDefs exStrayMod none ⟨0, 0, 10, 0, 0⟩ = false ∧
    isCombatModValid exDefs exStrayMod [] none ⟨0, 0, 10, 0, 0⟩ = false :=
  (activity_combat_tag_required exDefs exStrayMod [] none ⟨0, 0, 10, 0, 0⟩).2.2 (by decide)

/-- C3: when a triple survives the slot loop, the best-so-far state is
replaced exactly when the unassigned count strictly drops, or ties while
the energy score strictly drops; a candidate equal on both keys leaves
the incumbent in place. -/
theorem replacement_rule (ctx : SearchCtx) (st : SearchState)
    (activityPerm combatPerm generalPerm : List (Option Mod))
    (assignments : AssignMap) (unassignedModCount : Nat)
    (h : itemLoop ctx activityPerm combatPerm generalPerm st.assignmentUnassignedModCount
      ctx.items 0 0 [] = some (assignments, unassignedModCount)) :
    stepTriple ctx st activityPerm combatPerm generalPerm =
      if unassignedModCount < st.assignmentUnassignedModCount ∨
          (unassignedModCount = st.assignmentUnassignedModCount ∧
            scoreAssignments ctx assignments < st.assignmentEnergyCost) then
        ⟨assignments, scoreAssignments ctx assignments, unassignedModCount⟩
      else st := by
  simp only [stepTriple, h]
  by_cases hrep : unassignedModCount < st.assignmentUnassignedModCount ∨
      (unassignedModCount = st.assignmentUnassignedModCount ∧
        scoreAssignments ctx assignments < st.assignmentEnergyCost)
  · rw [if_pos hrep, if_pos]
    simp only [Bool.or_eq_true, Bool.and_eq_true, decide_eq_true_eq]
    omega
  · rw [if_neg hrep, if_neg]
    simp only [Bool.or_eq_true, Bool.and_eq_true, decide_eq_true_eq]
    omega

/-- Witness for C3 at a concrete input: with no items the slot loop
yields the empty candidate with zero unassigned mods, which replaces a
state with best count 3. -/
theorem replacement_rule_witness :
    stepTriple exCtxEmpty ⟨[("x", ⟨[], []⟩)], 5, 3⟩ [] [] [] =
      if 0 < 3 ∨ (0 = 3 ∧ scoreAssignments exCtxEmpty [] < 5) then
        ⟨([] : AssignMap), scoreAssignments exCtxEmpty [], 0⟩
      else ⟨[("x", ⟨[], []⟩)], 5, 3⟩ :=
  replacement_rule exCtxEmpty ⟨[("x", ⟨[], []⟩)], 5, 3⟩ [] [] [] [] 0 rfl

/-- C4: as soon as the running unassigned count plus the unassigned
items of the current slot strictly exceeds the best-so-far unassigned
count, the slot loop answers the abandonment marker no matter what the
remaining slots are, and an abandoned triple leaves the best-so-far
state untouched (the enumeration then moves to the next
general-permutation). -/
theorem early_abandonment (ctx : SearchCtx) :
    (∀ (best : Nat) (activityPerm combatPerm generalPerm : List (Option Mod)) (item : Item)
        (rest : List Item) (i unassignedModCount : Nat) (assignments : AssignMap),
      unassignedModCount +
          (evalSlotAt ctx activityPerm combatPerm generalPerm item.id i).unassigned.length >
          best →
      itemLoop ctx activityPerm combatPerm generalPerm best (item :: rest) i
        unassignedModCount assignments = none) ∧
    (∀ (st : SearchState) (activityPerm combatPerm generalPerm : List (Option Mod)),
      itemLoop ctx activityPerm combatPerm generalPerm st.assignmentUnassignedModCount
        ctx.items 0 0 [] = none →
      stepTriple ctx st activityPerm combatPerm generalPerm = st) := by
  constructor
  · intro best activityPerm combatPerm generalPerm item rest i count assignments h
    simp only [itemLoop]
    rw [if_pos h]
  · intro st activityPerm combatPerm generalPerm h
    simp only [stepTriple, h]

/-- Witness for C4 at a concrete input: the over-budget general mod
makes the only slot produce one unassigned item against a best of 0,
so the loop aborts and the triple leaves the state unchanged. -/
theorem early_abandonment_witness :
    itemLoop exCtx [none] [none] [some exBigMod] 0 [exItem] 0 0 [] = none ∧
    stepTriple exCtx ⟨initAssignments [exItem], 10000, 0⟩ [none] [none] [some exBigMod] =
      ⟨initAssignments [exItem], 10000, 0⟩ :=
  ⟨(early_abandonment exCtx).1 0 [none] [none] [some exBigMod] exItem [] 0 0 [] (by decide),
   (early_abandonment exCtx).2 ⟨initAssignments [exItem], 10000, 0⟩ [none] [none]
     [some exBigMod] (by decide)⟩

/-- C9: along the sequence of examined triples the best-so-far
unassigned count never increases; when it stays equal the score never
increases, and when the state is actually replaced at equal unassigned
count the score strictly decreases. -/
theorem monotonic_improvement (ctx : SearchCtx) (st : SearchState)
    (activityPerm combatPerm generalPerm : List (Option Mod)) :
    (stepTriple ctx st activityPerm combatPerm generalPerm).assignmentUnassignedModCount ≤
      st.assignmentUnassignedModCount ∧
    ((stepTriple ctx st activityPerm combatPerm generalPerm).assignmentUnassignedModCount =
        st.assignmentUnassignedModCount →
      (stepTriple ctx st activityPerm combatPerm generalPerm).assignmentEnergyCost ≤
        st.assignmentEnergyCost) ∧
    (stepTriple ctx st activityPerm combatPerm generalPerm ≠ st →
      (stepTriple ctx st activityPerm combatPerm generalPerm).assignmentUnassignedModCount =
        st.assignmentUnassignedModCount →
      (stepTriple ctx st activityPerm combatPerm generalPerm).assignmentEnergyCost <
        st.assignmentEnergyCost) := by
  unfold stepTriple
  rcases hloop : itemLoop ctx activityPerm combatPerm generalPerm
      st.assignmentUnassignedModCount ctx.items 0 0 [] with - | ⟨assignments, count⟩
  · simp
  · simp only []
    rcases hrep : decide (count < st.assignmentUnassignedModCount) ||
        (decide (count ≤ st.assignmentUnassignedModCount) &&
          decide (scoreAssignments ctx assignments < st.assignmentEnergyCost)) with - | -
    · simp
    · simp only [Bool.or_eq_true, Bool.and_eq_true, decide_eq_true_eq] at hrep
      refine ⟨by simp; omega, ?_, ?_⟩
      · intro hcount
        simp at hcount ⊢
        omega
      · intro hne hcount
        simp at hcount ⊢
        omega

/-- Witness for C9 at a concrete input: a replacement at equal
unassigned count 0 strictly lowers the score from 5 to 0. -/
theorem monotonic_improvement_witness :
    stepTriple exCtxEmpty ⟨[("x", ⟨[], []⟩)], 5, 0⟩ [] [] [] ≠ ⟨[("x", ⟨[], []⟩)], 5, 0⟩ ∧
    (stepTriple exCtxEmpty ⟨[("x", ⟨[], []⟩)], 5, 0⟩ [] [] []).assignmentUnassignedModCount =
      (⟨[("x", ⟨[], []⟩)], 5, 0⟩ : SearchState).assignmentUnassignedModCount ∧
    (stepTriple exCtxEmpty ⟨[("x", ⟨[], []⟩)], 5, 0⟩ [] [] []).assignmentEnergyCost <
      (⟨[("x", ⟨[], []⟩)], 5, 0⟩ : SearchState).assignmentEnergyCost :=
  ⟨by decide, by decide,
   (monotonic_improvement exCtxEmpty ⟨[("x", ⟨[], []⟩)], 5, 0⟩ [] [] []).2.2 (by decide)
     (by decide)⟩

end DIM

